import Mathlib

/-!
Verification development for the job-alert bot (src/main.py).

The Python program is embedded shallowly:
* The Redis backend of the dedupe layer is a key/value store modelled as an
  association list from stored key to its time-to-live in seconds; the remote
  store contents at connection time are a parameter.
* The file backend is a record of the in-memory seen set and the text content
  of the seen_jobs.txt file.  File writes are string appends; the startup read
  applies universal-newline translation (text-mode reads turn CR LF and lone
  CR into LF), splits the content at newlines, strips each line with the
  whitespace set of Python str.strip, and drops blank lines, exactly as the
  Python constructor does.
* Python string truthiness (None and the empty string are falsy) is modelled
  explicitly where the source relies on it.
* float(s) on a Python string either yields a number or raises; this outcome
  is modelled by the FloatParse type, which carries the raw text together with
  the result of the parse.  Numbers are rationals.
-/

namespace JobBot

/-- Python truthiness of an optional string: None and the empty string are
falsy, every other string is truthy. -/
def optStrTruthy : Option String → Bool
  | none => false
  | some s => s ≠ ""

/-- Rendering of an optional string inside a Python f-string: None prints as
the four characters None, a string prints as itself. -/
def pyShow : Option String → String
  | none => "None"
  | some s => s

/-- A Python string together with the outcome of calling float() on it:
bad means float() raises, val means float() returns the given number
(modelled as a rational). -/
inductive FloatParse where
  | bad (s : String)
  | val (s : String) (q : ℚ)
deriving DecidableEq, Repr

/-- The raw text of the Python string. -/
def FloatParse.text : FloatParse → String
  | .bad s => s
  | .val s _ => s

/-- The numeric outcome of float(): none when float() raises. -/
def FloatParse.toRat : FloatParse → Option ℚ
  | .bad _ => none
  | .val _ q => some q

/-! ## Dedupe layer: Redis backend (src/main.py lines 46-54)

The store is an association list from stored key to remaining TTL in
seconds.  setnx adds the key only if absent; on a fresh key the code then
sets an expiry of 10 * 24 * 3600 seconds and reports False (not seen); on a
present key it reports True and touches nothing. -/

/-- The Redis store contents: stored key paired with its TTL in seconds. -/
abbrev RedisState : Type := List (String × Nat)

/-- The keys currently present in the Redis store. -/
def RedisState.keys (st : RedisState) : List String :=
  st.map Prod.fst

/-- Dedupe.seen_before, Redis branch: setnx on job: followed by the key; if
it was added, set expiry 10 * 24 * 3600 seconds and return false, else
return true with the store untouched. -/
def redis_seen_before (st : RedisState) (key : String) : Bool × RedisState :=
  let k := "job:" ++ key
  if k ∈ st.keys then
    (true, st)
  else
    (false, (k, 10 * 24 * 3600) :: st)

/-! ## Dedupe layer: file backend (src/main.py lines 39-44 and 55-61) -/

/-- The characters Python str.isspace holds true of (CPython, current
Unicode tables): the ASCII control whitespace, the separator controls
U+001C-U+001F, space, NEL, no-break space, and the Unicode space
separators.  str.strip with no argument removes exactly these. -/
def pyWhitespace : List Char :=
  ['\t', '\n', '\x0b', '\x0c', '\r', '\x1c', '\x1d', '\x1e', '\x1f',
   ' ', '\x85', '\xa0', '\u1680', '\u2000', '\u2001', '\u2002', '\u2003',
   '\u2004', '\u2005', '\u2006', '\u2007', '\u2008', '\u2009', '\u200a',
   '\u2028', '\u2029', '\u202f', '\u205f', '\u3000']

/-- Python str.isspace for one character. -/
def pyIsSpace (c : Char) : Bool :=
  pyWhitespace.contains c

/-- Python str.strip on a character list: drop Python whitespace from the
front, then from the back. -/
def stripChars (l : List Char) : List Char :=
  ((l.dropWhile pyIsSpace).reverse.dropWhile pyIsSpace).reverse

/-- Python str.strip. -/
def pyStrip (s : String) : String :=
  String.mk (stripChars s.data)

/-- Universal-newline translation of text-mode reads: a carriage return
followed by a newline, or a lone carriage return, reads as a newline. -/
def translateNl : List Char → List Char
  | [] => []
  | [c] => [if c = '\r' then '\n' else c]
  | c :: d :: rest =>
    if c = '\r' ∧ d = '\n' then '\n' :: translateNl rest
    else (if c = '\r' then '\n' else c) :: translateNl (d :: rest)

/-- Process the already-translated content: split at newline characters
(iterating over a Python text file yields exactly these pieces, each with
a trailing newline that the subsequent strip removes), strip each line,
keep the non-blank ones. -/
def processLines (l : List Char) : List String :=
  ((l.splitOn '\n').map (fun p => pyStrip (String.mk p))).filter
    (fun s => s != "")

/-- The startup read of the seen file on the character list of the raw
content: universal-newline translation, then line processing. -/
def loadList (l : List Char) : List String :=
  processLines (translateNl l)

/-- The startup read of the seen file.  Embeds
set(line.strip() for line in f if line.strip()). -/
def load_seen (content : String) : List String :=
  loadList content.data

/-- The seen file content ends at a line boundary: it is empty or its last
character is a newline.  Every content the program itself writes has this
shape, since each append ends with a newline. -/
def terminated (c : String) : Prop :=
  c.data = [] ∨ c.data.getLast? = some '\n'

/-- A dedupe key that survives the write-then-read round trip of the file
backend textually unchanged: non-empty, free of newline and carriage
return characters (both of which end a line when read back), and fixed by
Python whitespace stripping. -/
def safeKey (k : String) : Prop :=
  k ≠ "" ∧ pyStrip k = k ∧ '\n' ∉ k.data ∧ '\r' ∉ k.data

instance (k : String) : Decidable (safeKey k) := by
  unfold safeKey
  infer_instance

/-- The file backend state: the in-memory seen set (a list with set
semantics, queried only through membership) and the current text content of
the seen file. -/
structure FileState where
  seen : List String
  content : String
deriving DecidableEq

/-- The file-backend part of Dedupe.__init__: read the seen file (created
empty when missing, the content parameter is the file content after that
step) into the in-memory set. -/
def file_init (content : String) : FileState :=
  { seen := load_seen content, content := content }

/-- Dedupe.seen_before, file branch: a present key reports true with no
mutation; an absent key is added to the in-memory set, appended to the file
followed by a newline, and reported false. -/
def file_seen_before (st : FileState) (key : String) : Bool × FileState :=
  if key ∈ st.seen then
    (true, st)
  else
    (false, { seen := key :: st.seen, content := st.content ++ key ++ "\n" })

/-- Run a sequence of file-backend seen_before calls, returning the list of
(key, result) pairs in call order together with the final state. -/
def file_run (st : FileState) : List String → List (String × Bool) × FileState
  | [] => ([], st)
  | k :: ks =>
    let r := file_seen_before st k
    let rest := file_run r.2 ks
    ((k, r.1) :: rest.1, rest.2)

/-- The keys of a run whose call returned false, in call order: exactly the
keys the run appended to the file. -/
def falseKeys (rs : List (String × Bool)) : List String :=
  (rs.filter (fun p => !p.2)).map Prod.fst

/-! ## Dedupe backend selection (src/main.py lines 27-44)

Dedupe.__init__ tries Redis only when REDIS_URL is truthy; any exception
from connecting or from the ping is caught (the constructor never raises)
and the file backend is used instead.  The remote store contents and the
success of the connection attempt are parameters of the model. -/

/-- The backend held by a Dedupe instance for the process lifetime. -/
inductive Backend where
  | redis (st : RedisState)
  | file (st : FileState)
deriving DecidableEq

/-- Dedupe.__init__: use Redis when REDIS_URL is truthy and the connection
and ping succeed; otherwise fall back to the file backend over the local
seen file.  Total: the except branch means construction never raises. -/
def dedupe_init (redisUrl : Option String) (connectOk : Bool)
    (remote : RedisState) (fileContent : String) : Backend :=
  if optStrTruthy redisUrl ∧ connectOk then
    Backend.redis remote
  else
    Backend.file (file_init fileContent)

/-- Dedupe.seen_before: dispatch on the selected backend. -/
def seen_before (b : Backend) (key : String) : Bool × Backend :=
  match b with
  | .redis st =>
    let r := redis_seen_before st key
    (r.1, .redis r.2)
  | .file st =>
    let r := file_seen_before st key
    (r.1, .file r.2)

/-! ## Urgency classifier (src/main.py lines 111-124)

The source decorates each label with emoji whose bytes are mojibake in the
file; the labels here keep only their distinguishing text, an injective
renaming of the five distinct return strings. -/

/-- urgency_label: None reports no rating; otherwise float(rating) is tried,
a raise reports no rating, and a number is classified by fixed thresholds. -/
def urgency_label (rating : Option FloatParse) : String :=
  match rating with
  | none => "No rating"
  | some fp =>
    match fp.toRat with
    | some r =>
      if r ≥ 4.6 then "APPLY NOW"
      else if r ≥ 4.2 then "Good Fit"
      else if r ≥ 3.8 then "Consider"
      else "Low"
    | none => "No rating"

/-! ## Source adapters (src/main.py lines 131-243)

Each adapter is modelled over the outcome of its fetch-and-parse prelude:
none means requests.get or BeautifulSoup raised (the outer except catches
it, prints, and the accumulated empty list is returned); some jobs gives
the parsed job cards.  HTML text extraction and stripping are abstracted
into the card fields.  The dedupe store is threaded through explicitly
since the Python module holds it in the global deduper. -/

/-- One job listing as carried through the pipeline: the dict appended to
found by an adapter.  The rating field keeps the raw text together with its
float() outcome. -/
structure JobRecord where
  site : String
  title : String
  company : String
  rating : Option FloatParse
  link : Option String
deriving DecidableEq

/-- One Indeed job card.  h2Title is the stripped text of the h2 element
when the find and text access succeed, none when that chain raises and the
inner except falls back to the full card text.  ratingText is the stripped
text of the ratingNumber span with its float() outcome. -/
structure IndeedJob where
  h2Title : Option String
  fullText : String
  companyName : Option String
  ratingText : Option FloatParse
  href : Option String
deriving DecidableEq

/-- Python str.startswith, on the character lists. -/
def pyStartsWith (s p : String) : Bool :=
  p.data.isPrefixOf s.data

/-- The link rewrite of parse_indeed: a truthy href starting with /rc/ or
with / gets the Indeed origin prepended, anything else is kept as is. -/
def indeed_link (href : Option String) : Option String :=
  match href with
  | none => none
  | some l =>
    if l ≠ "" ∧ pyStartsWith l "/rc/" then some ("https://www.indeed.com" ++ l)
    else if l ≠ "" ∧ pyStartsWith l "/" then some ("https://www.indeed.com" ++ l)
    else some l

/-- The rating filter of parse_indeed: the job is dropped exactly when the
rating is truthy (present and non-empty), float() succeeds on it and the
value is below MIN_RATING.  A float() raise lands in the except: pass
branch, so an unparsable rating never drops the job. -/
def indeed_rating_reject (minR : ℚ) (rating : Option FloatParse) : Bool :=
  match rating with
  | none => false
  | some fp =>
    if fp.text ≠ "" then
      match fp.toRat with
      | some q => decide (q < minR)
      | none => false
    else false

/-- The title extracted for an Indeed card: the h2 text, or the full card
text when the h2 access raised. -/
def indeed_title (j : IndeedJob) : String :=
  match j.h2Title with | some t => t | none => j.fullText

/-- The company extracted for an Indeed card, with the Unknown sentinel. -/
def indeed_company (j : IndeedJob) : String :=
  match j.companyName with | some c => c | none => "Unknown"

/-- The dedupe key formed for an Indeed card: indeed:: followed by the
f-string rendering of the rewritten link (None when the link is absent). -/
def indeed_key (j : IndeedJob) : String :=
  "indeed::" ++ pyShow (indeed_link j.href)

/-- The record dict appended to found for an Indeed card. -/
def indeed_record (j : IndeedJob) : JobRecord :=
  ⟨"Indeed", indeed_title j, indeed_company j, j.ratingText, indeed_link j.href⟩

/-- The loop body of parse_indeed for one job card: extract the fields,
rewrite the link, form the dedupe key, apply the rating filter, then
consult the dedupe store and append the record when novel. -/
def indeed_step (minR : ℚ) (acc : List JobRecord × Backend) (j : IndeedJob) :
    List JobRecord × Backend :=
  if indeed_rating_reject minR j.ratingText then acc
  else
    let r := seen_before acc.2 (indeed_key j)
    if r.1 then (acc.1, r.2)
    else (acc.1 ++ [indeed_record j], r.2)

/-- parse_indeed: on fetch or top-level parse failure the except branch
returns the still-empty found list; otherwise the job cards are processed
in page order. -/
def parse_indeed (minR : ℚ) (st : Backend) (page : Option (List IndeedJob)) :
    List JobRecord × Backend :=
  match page with
  | none => ([], st)
  | some jobs => jobs.foldl (indeed_step minR) ([], st)

/-- One Naukri job card: titleTag is the a.title element when present,
carrying its stripped text and its href attribute; subTitle the stripped
company text. -/
structure NaukriJob where
  titleTag : Option (String × Option String)
  fullText : String
  subTitle : Option String
deriving DecidableEq

/-- The link of a Naukri card: the href of the a.title element, None when
the element or the attribute is missing. -/
def naukri_link (j : NaukriJob) : Option String :=
  match j.titleTag with | some p => p.2 | none => none

/-- The dedupe key formed for a Naukri card. -/
def naukri_key (j : NaukriJob) : String :=
  "naukri::" ++ pyShow (naukri_link j)

/-- The record dict appended to found for a Naukri card (rating is always
None on this site). -/
def naukri_record (j : NaukriJob) : JobRecord :=
  ⟨"Naukri",
   match j.titleTag with | some p => p.1 | none => j.fullText,
   match j.subTitle with | some c => c | none => "Unknown",
   none, naukri_link j⟩

/-- The loop body of parse_naukri for one job card: rating is always None
so the rating filter never fires; the record is appended only when the link
is truthy and the store has not seen the key; a falsy link short-circuits
the conjunction, so the store is not even consulted. -/
def naukri_step (acc : List JobRecord × Backend) (j : NaukriJob) :
    List JobRecord × Backend :=
  if optStrTruthy (naukri_link j) then
    let r := seen_before acc.2 (naukri_key j)
    if r.1 then (acc.1, r.2)
    else (acc.1 ++ [naukri_record j], r.2)
  else acc

/-- parse_naukri.  The source text of this function is in fact rejected by
the Python parser: the try opened at line 181 has no except or finally
clause, so importing the module raises SyntaxError (reported at line 204).
This model follows the statements as written, with the stray try read as a
no-op, which is the evident intent given the two sibling adapters. -/
def parse_naukri (st : Backend) (page : Option (List NaukriJob)) :
    List JobRecord × Backend :=
  match page with
  | none => ([], st)
  | some jobs => jobs.foldl naukri_step ([], st)

/-- One LinkedIn job card: h3Title the stripped h3 text when present,
fullText the stripped card text fallback, parentH4 the stripped text of the
h4 element found under the card parent, href the link attribute. -/
structure LinkedInJob where
  h3Title : Option String
  fullText : String
  parentH4 : Option String
  href : Option String
deriving DecidableEq

/-- The dedupe key formed for a LinkedIn card. -/
def linkedin_key (j : LinkedInJob) : String :=
  "linkedin::" ++ pyShow j.href

/-- The record dict appended to found for a LinkedIn card: comp or Unknown
turns a falsy company into the sentinel; rating is always None. -/
def linkedin_record (j : LinkedInJob) : JobRecord :=
  ⟨"LinkedIn",
   match j.h3Title with | some t => t | none => j.fullText,
   match j.parentH4 with
   | some c => if c = "" then "Unknown" else c
   | none => "Unknown",
   none, j.href⟩

/-- The loop body of parse_linkedin for one job card: rating is always
None; the record is appended only when the link is truthy and the store has
not seen the key; a falsy link short-circuits the conjunction. -/
def linkedin_step (acc : List JobRecord × Backend) (j : LinkedInJob) :
    List JobRecord × Backend :=
  if optStrTruthy j.href then
    let r := seen_before acc.2 (linkedin_key j)
    if r.1 then (acc.1, r.2)
    else (acc.1 ++ [linkedin_record j], r.2)
  else acc

/-- parse_linkedin, over the fetch-and-parse outcome like the others. -/
def parse_linkedin (st : Backend) (page : Option (List LinkedInJob)) :
    List JobRecord × Backend :=
  match page with
  | none => ([], st)
  | some jobs => jobs.foldl linkedin_step ([], st)

/-! ## Orchestrator (src/main.py lines 246-277) -/

/-- Python: item link or the No link sentinel (None and the empty string
are falsy). -/
def orNoLink : Option String → String
  | none => "No link"
  | some l => if l = "" then "No link" else l

/-- The separator line, sixty hyphens. -/
def dashSep : String := String.mk (List.replicate 60 '-')

/-- The four digest lines appended for one record: label line, link line,
rating line, separator.  The decorative dash of the label line, mojibake
bytes in the source, is rendered as an ASCII hyphen here, an injective
renaming that affects no claim. -/
def record_block (item : JobRecord) : List String :=
  [urgency_label item.rating ++ " - " ++ item.title ++ " @ " ++ item.company
     ++ " (Site: " ++ item.site ++ ")",
   orNoLink item.link,
   "Rating: " ++ pyShow (item.rating.map FloatParse.text),
   dashSep]

/-- The digest header: timestamp and minimum rating, with its embedded
newlines as in the source and the source's mojibake dash rendered as an
ASCII hyphen. -/
def digest_header (now minRatingStr : String) : String :=
  "New job matches - " ++ now ++ "\nMinimum rating: " ++ minRatingStr ++ "\n"

/-- The sequential adapter pass of run_all: invoke parse_indeed, then
parse_naukri, then parse_linkedin against the shared dedupe store, in that
fixed order, and concatenate their result lists in the same order. -/
def run_results (minR : ℚ) (st : Backend) (pageI : Option (List IndeedJob))
    (pageN : Option (List NaukriJob)) (pageL : Option (List LinkedInJob)) :
    List JobRecord × Backend :=
  let ri := parse_indeed minR st pageI
  let rn := parse_naukri ri.2 pageN
  let rl := parse_linkedin rn.2 pageL
  (ri.1 ++ rn.1 ++ rl.1, rl.2)

/-- run_all: run the adapter pass; an empty total prints that no new jobs
were found and returns with no notification; otherwise one digest is
built, one line block per record, and handed to send_email exactly once as
(subject, body).  now and today are the two timestamp renderings,
minRatingStr the Python string form of MIN_RATING. -/
def run_all (minR : ℚ) (now today minRatingStr : String) (st : Backend)
    (pageI : Option (List IndeedJob)) (pageN : Option (List NaukriJob))
    (pageL : Option (List LinkedInJob)) : Option (String × String) × Backend :=
  let r := run_results minR st pageI pageN pageL
  if r.1.isEmpty then (none, r.2)
  else
    let lines := digest_header now minRatingStr :: (r.1.map record_block).flatten
    let body := String.intercalate "\n" lines
    let subject := "[Jobs] " ++ toString r.1.length ++ " new job(s) ("
      ++ today ++ ")"
    (some (subject, body), r.2)

/-! ## Theorems -/

/-- C1: for a dedupe key not yet in the store, calling seen_before with the
same key twice in sequence returns false (not seen) on the first call and
true (seen) on the second, on the Redis backend (TTL does not elapse inside
the model) and on the file backend within one process lifetime. -/
theorem seen_before_twice (key : String) (rst : RedisState) (fst : FileState)
    (hr : ("job:" ++ key) ∉ rst.keys) (hf : key ∉ fst.seen) :
    (redis_seen_before rst key).1 = false ∧
    (redis_seen_before (redis_seen_before rst key).2 key).1 = true ∧
    (file_seen_before fst key).1 = false ∧
    (file_seen_before (file_seen_before fst key).2 key).1 = true := by
  refine ⟨?_, ?_, ?_, ?_⟩
  · simp [redis_seen_before, hr]
  · have h2 : (redis_seen_before rst key).2
        = ("job:" ++ key, 10 * 24 * 3600) :: rst := by
      simp [redis_seen_before, hr]
    rw [h2]
    simp [redis_seen_before, RedisState.keys]
  · simp [file_seen_before, hf]
  · have h2 : (file_seen_before fst key).2
        = ⟨key :: fst.seen, fst.content ++ key ++ "\n"⟩ := by
      simp [file_seen_before, hf]
    rw [h2]
    simp [file_seen_before]

/-- Witness for C1: the key a over the empty Redis store and over a file
backend freshly initialized from an empty file. -/
theorem seen_before_twice_witness :
    (redis_seen_before [] "a").1 = false ∧
    (redis_seen_before (redis_seen_before [] "a").2 "a").1 = true ∧
    (file_seen_before (file_init "") "a").1 = false ∧
    (file_seen_before (file_seen_before (file_init "") "a").2 "a").1 = true :=
  seen_before_twice "a" [] (file_init "") (by decide) (by decide)

/-- C3: on the Redis backend, seen_before does a set-if-absent on the key
job: ++ key; a fresh key is stored with a time-to-live of 10 * 24 * 3600
seconds (ten days) and the call returns false, while a present key makes
the call return true with the store returned untouched. -/
theorem redis_seen_before_spec (st : RedisState) (key : String) :
    (("job:" ++ key) ∉ st.keys →
      redis_seen_before st key
        = (false, ("job:" ++ key, 10 * 24 * 3600) :: st)) ∧
    (("job:" ++ key) ∈ st.keys → redis_seen_before st key = (true, st)) := by
  constructor <;> intro h <;> simp [redis_seen_before, h]

/-- Witness for C3: the key x against the empty store, then against the
store holding exactly the entry the first call created. -/
theorem redis_seen_before_spec_witness :
    redis_seen_before [] "x" = (false, [("job:x", 864000)]) ∧
    redis_seen_before [("job:x", 864000)] "x" = (true, [("job:x", 864000)]) := by
  constructor
  · rw [(redis_seen_before_spec [] "x").1 (by decide)]
    rfl
  · exact (redis_seen_before_spec [("job:x", 864000)] "x").2 (by decide)

/-- C4: when the Redis connection attempt fails at construction (or no
Redis URL is configured), Dedupe.__init__ returns the file backend over the
local file rather than raising (the model is total), and a subsequent
seen_before call operates against the file. -/
theorem dedupe_init_fallback (url : Option String) (ok : Bool)
    (remote : RedisState) (c : String) (key : String) :
    dedupe_init url false remote c = .file (file_init c) ∧
    dedupe_init none ok remote c = .file (file_init c) ∧
    seen_before (dedupe_init url false remote c) key
      = ((file_seen_before (file_init c) key).1,
         .file (file_seen_before (file_init c) key).2) := by
  have h1 : dedupe_init url false remote c = .file (file_init c) := by
    simp [dedupe_init]
  refine ⟨h1, ?_, ?_⟩
  · simp [dedupe_init, optStrTruthy]
  · rw [h1]
    simp [seen_before]

/-- C5 counterexample: a rating that is present but unparsable as a number
is labelled No rating by urgency_label, not Low as the claim states. -/
theorem urgency_label_unparsable_cex :
    urgency_label (some (.bad "N/A")) = "No rating" ∧
    urgency_label (some (.bad "N/A")) ≠ "Low" := by
  constructor <;> decide

/-- C5 (amended): urgency_label maps an absent rating to No rating, a
present rating on which float() raises to No rating as well, and a parsed
value to APPLY NOW at or above 4.6, Good Fit at or above 4.2, Consider at
or above 3.8, and Low below 3.8. -/
theorem urgency_label_spec (fp : FloatParse) (q : ℚ) :
    urgency_label none = "No rating" ∧
    (fp.toRat = none → urgency_label (some fp) = "No rating") ∧
    (fp.toRat = some q →
      ((q ≥ 4.6 → urgency_label (some fp) = "APPLY NOW") ∧
       (4.2 ≤ q ∧ q < 4.6 → urgency_label (some fp) = "Good Fit") ∧
       (3.8 ≤ q ∧ q < 4.2 → urgency_label (some fp) = "Consider") ∧
       (q < 3.8 → urgency_label (some fp) = "Low"))) := by
  refine ⟨rfl, ?_, ?_⟩
  · intro h
    simp [urgency_label, h]
  · intro h
    simp only [urgency_label, h]
    refine ⟨?_, ?_, ?_, ?_⟩
    · intro hq
      rw [if_pos hq]
    · intro hq
      rw [if_neg (by exact not_le.mpr hq.2), if_pos (by exact hq.1)]
    · intro hq
      rw [if_neg (by exact not_le.mpr (lt_of_lt_of_le hq.2 (by norm_num))),
        if_neg (by exact not_le.mpr hq.2), if_pos (by exact hq.1)]
    · intro hq
      rw [if_neg (by exact not_le.mpr (lt_trans hq (by norm_num))),
        if_neg (by exact not_le.mpr (lt_trans hq (by norm_num))),
        if_neg (by exact not_le.mpr hq)]

/-- Witness for C5: the boundary value 4.2 is labelled Good Fit. -/
theorem urgency_label_spec_witness :
    urgency_label (some (.val "4.2" (42 / 10))) = "Good Fit" :=
  ((urgency_label_spec (.val "4.2" (42 / 10)) (42 / 10)).2.2 rfl).2.1
    ⟨by norm_num, by norm_num⟩

/-- C7: each adapter returns the empty list, with the dedupe store
untouched, when its fetch-and-parse prelude fails.  The claim itself is
broken by the source rather than by this model: the try opened at
src/main.py line 181 has no except or finally clause, so the module is
rejected by the Python parser (SyntaxError reported at line 204) and
parse_naukri can never run at all; this theorem is about the evident
intended code, which the model follows. -/
theorem adapters_fetch_failure_empty (minR : ℚ) (st : Backend) :
    parse_indeed minR st none = ([], st) ∧
    parse_naukri st none = ([], st) ∧
    parse_linkedin st none = ([], st) :=
  ⟨rfl, rfl, rfl⟩

/-- C10: in parse_indeed, a rating that is present but on which float()
raises never triggers the minimum-rating filter, whatever MIN_RATING is:
the record is included subject only to the dedupe check. -/
theorem indeed_step_unparsable_rating (minR : ℚ)
    (acc : List JobRecord × Backend) (j : IndeedJob) (fp : FloatParse)
    (hp : j.ratingText = some fp) (hbad : fp.toRat = none) :
    indeed_rating_reject minR j.ratingText = false ∧
    indeed_step minR acc j
      = (if (seen_before acc.2 (indeed_key j)).1
         then (acc.1, (seen_before acc.2 (indeed_key j)).2)
         else (acc.1 ++ [indeed_record j], (seen_before acc.2 (indeed_key j)).2)) := by
  have hr : indeed_rating_reject minR j.ratingText = false := by
    rw [hp]
    cases fp with
    | bad s => simp [indeed_rating_reject, FloatParse.toRat, FloatParse.text]
    | val s q => simp [FloatParse.toRat] at hbad
  exact ⟨hr, by simp [indeed_step, hr]⟩

/-- Witness for C10: a card with the unparsable rating NA passes the
filter even under MIN_RATING = 5 and is reported. -/
theorem indeed_step_unparsable_rating_witness :
    indeed_step 5 ([], .file (file_init ""))
        ⟨some "T", "T", none, some (.bad "NA"), some "u"⟩
      = ([indeed_record ⟨some "T", "T", none, some (.bad "NA"), some "u"⟩],
         .file ⟨["indeed::u"], "indeed::u\n"⟩) := by
  rw [(indeed_step_unparsable_rating 5 ([], .file (file_init ""))
    ⟨some "T", "T", none, some (.bad "NA"), some "u"⟩ (.bad "NA") rfl rfl).2]
  decide

/-- C6 counterexample: in parse_indeed a card with no link IS keyed, as
indeed::None, and marked seen in the store; on a second run over the
resulting store the same card is suppressed instead of resurfacing as the
claim states. -/
theorem missing_link_cex :
    (indeed_step 3 ([], .file (file_init "")) ⟨none, "Job A", none, none, none⟩).1
      = [⟨"Indeed", "Job A", "Unknown", none, none⟩] ∧
    (indeed_step 3 ([], .file (file_init "")) ⟨none, "Job A", none, none, none⟩).2
      = .file ⟨["indeed::None"], "indeed::None\n"⟩ ∧
    (indeed_step 3 ([], .file ⟨["indeed::None"], "indeed::None\n"⟩)
        ⟨none, "Job A", none, none, none⟩).1 = [] := by
  refine ⟨?_, ?_, ?_⟩ <;> decide

/-- C6 (amended): a record with an absent link is treated differently per
adapter.  In parse_indeed the dedupe key indeed::None is always formed;
when the rating filter does not reject the card, seen_before is called
with that key and the record is marked seen under it, so linkless Indeed
records are deduped collectively and do not resurface once one is
reported; when the rating filter rejects the card (a present, parseable
rating below MIN_RATING) the card is dropped by the continue before the
store is consulted.  In parse_naukri and parse_linkedin the falsy link
short-circuits the guard: seen_before is never called, the store is
untouched, and the record is dropped from the results entirely. -/
theorem missing_link_behaviour (minR : ℚ) (acc : List JobRecord × Backend)
    (ji : IndeedJob) (jn : NaukriJob) (jl : LinkedInJob)
    (hi : ji.href = none) (hn : naukri_link jn = none) (hl : jl.href = none) :
    indeed_key ji = "indeed::None" ∧
    (indeed_rating_reject minR ji.ratingText = false →
      indeed_step minR acc ji
        = (if (seen_before acc.2 "indeed::None").1
           then (acc.1, (seen_before acc.2 "indeed::None").2)
           else (acc.1 ++ [indeed_record ji],
                 (seen_before acc.2 "indeed::None").2))) ∧
    (indeed_rating_reject minR ji.ratingText = true →
      indeed_step minR acc ji = acc) ∧
    naukri_step acc jn = acc ∧
    linkedin_step acc jl = acc := by
  have hk : indeed_key ji = "indeed::None" := by
    simp [indeed_key, indeed_link, hi, pyShow]
  refine ⟨hk, ?_, ?_, ?_, ?_⟩
  · intro hr
    simp [indeed_step, hr, hk]
  · intro hr
    simp [indeed_step, hr]
  · simp [naukri_step, hn, optStrTruthy]
  · simp [linkedin_step, hl, optStrTruthy]

/-- Witness for C6: concrete linkless cards over a fresh file backend.
Indeed reports and marks the unrated card, drops the low-rated card
without touching the store, and Naukri and LinkedIn drop theirs with the
store untouched. -/
theorem missing_link_behaviour_witness :
    indeed_step 3 ([], .file (file_init "")) ⟨none, "JA", none, none, none⟩
      = ([indeed_record ⟨none, "JA", none, none, none⟩],
         .file ⟨["indeed::None"], "indeed::None\n"⟩) ∧
    indeed_step 3 ([], .file (file_init ""))
        ⟨none, "JD", none, some (.val "1.0" 1), none⟩
      = ([], .file (file_init "")) ∧
    naukri_step ([], .file (file_init "")) ⟨none, "JB", none⟩
      = ([], .file (file_init "")) ∧
    linkedin_step ([], .file (file_init "")) ⟨none, "JC", none, none⟩
      = ([], .file (file_init "")) := by
  have h := missing_link_behaviour 3 ([], .file (file_init ""))
    ⟨none, "JA", none, none, none⟩ ⟨none, "JB", none⟩ ⟨none, "JC", none, none⟩
    rfl rfl rfl
  have h2 := missing_link_behaviour 3 ([], .file (file_init ""))
    ⟨none, "JD", none, some (.val "1.0" 1), none⟩ ⟨none, "JB", none⟩
    ⟨none, "JC", none, none⟩ rfl rfl rfl
  refine ⟨?_, h2.2.2.1 (by decide), h.2.2.2.1, h.2.2.2.2⟩
  rw [h.2.1 (by decide)]
  decide

/-- C8: run_all invokes the three adapters sequentially in the fixed order
Indeed, Naukri, LinkedIn and concatenates their results in that order
(run_results); on a non-empty total it hands exactly one digest to the
notifier, whose body is the header line followed by one four-line block
per record (label line, link line, rating line, separator); on an empty
total it notifies nothing and returns normally. -/
theorem run_all_spec (minR : ℚ) (now today minRatingStr : String) (st : Backend)
    (pageI : Option (List IndeedJob)) (pageN : Option (List NaukriJob))
    (pageL : Option (List LinkedInJob)) :
    ((run_results minR st pageI pageN pageL).1 = [] →
      run_all minR now today minRatingStr st pageI pageN pageL
        = (none, (run_results minR st pageI pageN pageL).2)) ∧
    ((run_results minR st pageI pageN pageL).1 ≠ [] →
      run_all minR now today minRatingStr st pageI pageN pageL
        = (some ("[Jobs] " ++ toString (run_results minR st pageI pageN pageL).1.length
                   ++ " new job(s) (" ++ today ++ ")",
             String.intercalate "\n"
               (digest_header now minRatingStr
                 :: ((run_results minR st pageI pageN pageL).1.map record_block).flatten)),
           (run_results minR st pageI pageN pageL).2) ∧
      (((run_results minR st pageI pageN pageL).1.map record_block).flatten).length
        = 4 * (run_results minR st pageI pageN pageL).1.length) := by
  constructor
  · intro h
    simp [run_all, h]
  · intro h
    constructor
    · simp [run_all, h]
    · have hlen : ∀ rs : List JobRecord,
          ((rs.map record_block).flatten).length = 4 * rs.length := by
        intro rs
        induction rs with
        | nil => rfl
        | cons r rs ih =>
          simp [record_block, ih, Nat.mul_succ]
      exact hlen _

/-- Witness for C8: a run whose only record comes from LinkedIn produces
one digest with one block; a run with no records notifies nothing. -/
theorem run_all_spec_witness :
    run_all 3 "now" "today" "3.0" (.file (file_init "")) (some []) (some [])
        (some [⟨some "T", "T", some "C", some "u"⟩])
      = (some ("[Jobs] 1 new job(s) (today)",
          String.intercalate "\n"
            (digest_header "now" "3.0"
              :: record_block ⟨"LinkedIn", "T", "C", none, some "u"⟩)),
         .file ⟨["linkedin::u"], "linkedin::u\n"⟩) ∧
    run_all 3 "now" "today" "3.0" (.file (file_init "")) none none none
      = (none, .file (file_init "")) := by
  constructor
  · have h := (run_all_spec 3 "now" "today" "3.0" (.file (file_init ""))
      (some []) (some []) (some [⟨some "T", "T", some "C", some "u"⟩])).2
      (by decide)
    rw [h.1]
    decide
  · exact (run_all_spec 3 "now" "today" "3.0" (.file (file_init ""))
      none none none).1 rfl

/-- Membership in the in-memory seen set after a run of file-backend calls:
exactly the initial members plus the keys whose call returned false. -/
theorem file_run_seen_iff (ks : List String) (st : FileState) (x : String) :
    x ∈ (file_run st ks).2.seen ↔
      x ∈ st.seen ∨ x ∈ falseKeys (file_run st ks).1 := by
  induction ks generalizing st with
  | nil => simp [file_run, falseKeys]
  | cons k ks ih =>
    by_cases hk : k ∈ st.seen
    · simp only [file_run, file_seen_before, if_pos hk]
      rw [ih]
      simp [falseKeys]
    · simp only [file_run, file_seen_before, if_neg hk]
      rw [ih]
      simp [falseKeys]
      tauto

/-- The file content after a run of file-backend calls: the initial content
followed, in call order, by one appended line per call that returned false
and by nothing else. -/
theorem file_run_content_foldl (ks : List String) (st : FileState) :
    (file_run st ks).2.content
      = (falseKeys (file_run st ks).1).foldl
          (fun c k => c ++ k ++ "\n") st.content := by
  induction ks generalizing st with
  | nil => simp [file_run, falseKeys]
  | cons k ks ih =>
    by_cases hk : k ∈ st.seen
    · simp only [file_run, file_seen_before, if_pos hk]
      rw [ih]
      simp [falseKeys]
    · simp only [file_run, file_seen_before, if_neg hk]
      rw [ih]
      simp [falseKeys]

/-- The keys whose call returned false during a run are pairwise distinct
and none of them was in the seen set the run started from. -/
theorem file_run_falseKeys_fresh (ks : List String) (st : FileState) :
    (falseKeys (file_run st ks).1).Nodup ∧
    ∀ x ∈ falseKeys (file_run st ks).1, x ∉ st.seen := by
  induction ks generalizing st with
  | nil => simp [file_run, falseKeys]
  | cons k ks ih =>
    by_cases hk : k ∈ st.seen
    · simp only [file_run, file_seen_before, if_pos hk]
      exact ih st
    · simp only [file_run, file_seen_before, if_neg hk]
      have h := ih ⟨k :: st.seen, st.content ++ k ++ "\n"⟩
      simp only [falseKeys, List.filter_cons, Bool.not_false, List.map_cons] at *
      constructor
      · refine List.Nodup.cons ?_ h.1
        intro hmem
        exact (h.2 k hmem) (List.mem_cons_self k st.seen)
      · intro x hx
        rcases List.mem_cons.mp hx with rfl | hx
        · exact hk
        · intro hxs
          exact (h.2 x hx) (List.mem_cons_of_mem _ hxs)

/-- C9: after any sequence of seen_before calls on the file backend, the
in-memory seen set equals the set loaded from the file at startup united
with exactly the keys whose call returned false; the file content is the
startup content extended by one appended line per false-returning call, in
call order; and no key is appended twice within the process. -/
theorem file_run_invariant (c0 : String) (ks : List String) :
    (∀ x, x ∈ (file_run (file_init c0) ks).2.seen
        ↔ x ∈ load_seen c0 ∨ x ∈ falseKeys (file_run (file_init c0) ks).1) ∧
    (file_run (file_init c0) ks).2.content
      = (falseKeys (file_run (file_init c0) ks).1).foldl
          (fun c k => c ++ k ++ "\n") c0 ∧
    (falseKeys (file_run (file_init c0) ks).1).Nodup :=
  ⟨fun x => file_run_seen_iff ks (file_init c0) x,
   file_run_content_foldl ks (file_init c0),
   (file_run_falseKeys_fresh ks (file_init c0)).1⟩

/-- Witness for C9: running the calls a, b, a from an empty file leaves the
set with a and b, appends exactly a then b, and appends neither twice. -/
theorem file_run_invariant_witness :
    ("b" ∈ (file_run (file_init "") ["a", "b", "a"]).2.seen) ∧
    (file_run (file_init "") ["a", "b", "a"]).2.content = "a\nb\n" ∧
    (falseKeys (file_run (file_init "") ["a", "b", "a"]).1).Nodup := by
  have h := file_run_invariant "" ["a", "b", "a"]
  refine ⟨(h.1 "b").mpr (Or.inr (by decide)), ?_, h.2.2⟩
  rw [h.2.1]
  decide

/-! ### Line-splitting lemmas for the file backend round trip -/

/-- Splitting a list headed by a newline yields an empty first line. -/
theorem splitOn_cons_nl (xs : List Char) :
    ('\n' :: xs).splitOn '\n' = [] :: xs.splitOn '\n' := by
  simp [List.splitOn, List.splitOnP_cons]

/-- Splitting a list headed by a non-newline prepends it to the first
line. -/
theorem splitOn_cons_other (c : Char) (hc : c ≠ '\n') (xs : List Char) :
    (c :: xs).splitOn '\n' = List.modifyHead (fun l => c :: l) (xs.splitOn '\n') := by
  simp [List.splitOn, List.splitOnP_cons, hc]

/-- The split of any list is non-empty, in destructured form. -/
theorem splitOn_exists_cons (y : List Char) :
    ∃ w ws, y.splitOn '\n' = w :: ws := by
  cases h : y.splitOn '\n' with
  | nil => exact absurd h (List.splitOnP_ne_nil _ _)
  | cons w ws => exact ⟨w, ws, rfl⟩

/-- Splitting an appended list: the pieces of the left part, except that
its last piece merges with the first piece of the right part. -/
theorem splitOn_append_chunk (x : List Char) (y : List Char) (w : List Char)
    (ws : List (List Char)) (hw : y.splitOn '\n' = w :: ws) :
    (x ++ y).splitOn '\n'
      = (x.splitOn '\n').dropLast
          ++ ((x.splitOn '\n').getLastD [] ++ w) :: ws := by
  induction x with
  | nil =>
    have h0 : ([] : List Char).splitOn '\n' = [[]] := by
      simp [List.splitOn, List.splitOnP_nil]
    rw [List.nil_append, h0, hw]
    simp
  | cons c xs ih =>
    obtain ⟨z, zs, hz⟩ := splitOn_exists_cons xs
    by_cases hc : c = '\n'
    · subst hc
      rw [List.cons_append, splitOn_cons_nl, splitOn_cons_nl, ih, hz]
      cases zs with
      | nil => simp
      | cons z2 zs2 => simp [List.getLastD_cons]
    · rw [List.cons_append, splitOn_cons_other c hc, splitOn_cons_other c hc,
        ih, hz]
      cases zs with
      | nil => simp
      | cons z2 zs2 => simp [List.getLastD_cons]

/-- The split of a newline-terminated list ends in an empty piece. -/
theorem splitOn_terminated_shape (x : List Char) :
    (x ++ ['\n']).splitOn '\n'
      = ((x.splitOn '\n').dropLast ++ [(x.splitOn '\n').getLastD []]) ++ [[]] := by
  rw [splitOn_append_chunk x ['\n'] [] [[]] (by decide)]
  simp

/-- Stripping the empty line gives the empty string. -/
theorem pyStrip_empty : pyStrip "" = "" := rfl

/-- Line processing distributes over appending to a newline-terminated
content. -/
theorem processLines_append_terminated (x : List Char) (y : List Char) :
    processLines ((x ++ ['\n']) ++ y)
      = processLines (x ++ ['\n']) ++ processLines y := by
  obtain ⟨w, ws, hw⟩ := splitOn_exists_cons y
  rw [processLines, processLines, processLines,
    splitOn_append_chunk (x ++ ['\n']) y w ws hw, splitOn_terminated_shape, hw]
  simp only [List.dropLast_concat, List.map_append, List.map_cons,
    List.filter_append, List.filter_cons, List.map_nil, List.filter_nil,
    pyStrip_empty, bne_self_eq_false, Bool.false_eq_true, if_false,
    List.append_nil, List.nil_append, List.getLastD_concat]
  split <;> simp [pyStrip_empty]

/-- Line processing distributes over appending to any terminated content. -/
theorem processLines_append_of_terminated (a b : List Char)
    (ha : a = [] ∨ a.getLast? = some '\n') :
    processLines (a ++ b) = processLines a ++ processLines b := by
  rcases ha with h | h
  · rw [h]
    simp [processLines, List.splitOn, List.splitOnP_nil, pyStrip_empty]
  · obtain ⟨x, hx⟩ : ∃ x, a = x ++ ['\n'] :=
      ⟨a.dropLast,
        (List.dropLast_append_getLast? '\n' (Option.mem_def.mpr h)).symm⟩
    rw [hx]
    exact processLines_append_terminated x b

/-- Newline translation of a non-empty list is non-empty. -/
theorem translateNl_ne_nil (l : List Char) (h : l ≠ []) :
    translateNl l ≠ [] := by
  cases l with
  | nil => exact absurd rfl h
  | cons c l' =>
    cases l' with
    | nil => simp [translateNl]
    | cons d rest =>
      rw [translateNl]
      split
      · simp
      · simp

/-- Newline translation distributes over appending to a newline-terminated
prefix: the carriage-return pairing never spans the boundary. -/
theorem translateNl_append (a b : List Char)
    (ha : a = [] ∨ a.getLast? = some '\n') :
    translateNl (a ++ b) = translateNl a ++ translateNl b := by
  induction a using translateNl.induct with
  | case1 => simp [translateNl]
  | case2 c =>
    rcases ha with h | h
    · simp at h
    · simp only [List.getLast?_singleton, Option.some.injEq] at h
      subst h
      cases b with
      | nil => simp [translateNl]
      | cons e es =>
        rw [List.singleton_append, translateNl]
        simp [translateNl]
  | case3 c d rest hcd ih =>
    obtain ⟨rfl, rfl⟩ := hcd
    have ha' : rest = [] ∨ rest.getLast? = some '\n' := by
      rcases ha with h | h
      · simp at h
      · cases rest with
        | nil => exact Or.inl rfl
        | cons r rs =>
          right
          rwa [List.getLast?_cons_cons, List.getLast?_cons_cons] at h
    rw [List.cons_append, List.cons_append, translateNl, if_pos ⟨rfl, rfl⟩,
      ih ha', translateNl, if_pos ⟨rfl, rfl⟩]
    rfl
  | case4 c d rest hcd ih =>
    have ha' : (d :: rest) = [] ∨ (d :: rest).getLast? = some '\n' := by
      rcases ha with h | h
      · simp at h
      · right
        rwa [List.getLast?_cons_cons] at h
    rw [List.cons_append, List.cons_append, translateNl, if_neg hcd,
      ← List.cons_append, ih ha', translateNl, if_neg hcd]
    rfl

/-- Newline translation keeps a newline-terminated list newline
terminated. -/
theorem translateNl_terminated (a : List Char)
    (ha : a = [] ∨ a.getLast? = some '\n') :
    translateNl a = [] ∨ (translateNl a).getLast? = some '\n' := by
  induction a using translateNl.induct with
  | case1 => exact Or.inl rfl
  | case2 c =>
    rcases ha with h | h
    · simp at h
    · simp only [List.getLast?_singleton, Option.some.injEq] at h
      subst h
      right
      simp [translateNl]
  | case3 c d rest hcd ih =>
    obtain ⟨rfl, rfl⟩ := hcd
    have ha' : rest = [] ∨ rest.getLast? = some '\n' := by
      rcases ha with h | h
      · simp at h
      · cases rest with
        | nil => exact Or.inl rfl
        | cons r rs =>
          right
          rwa [List.getLast?_cons_cons, List.getLast?_cons_cons] at h
    rw [translateNl, if_pos ⟨rfl, rfl⟩]
    rcases ih ha' with h0 | h0
    · rw [h0]
      right
      rfl
    · right
      cases htn : translateNl rest with
      | nil => rw [htn] at h0; simp at h0
      | cons t ts =>
        rw [htn] at h0
        rwa [List.getLast?_cons_cons]
  | case4 c d rest hcd ih =>
    have ha' : (d :: rest) = [] ∨ (d :: rest).getLast? = some '\n' := by
      rcases ha with h | h
      · simp at h
      · right
        rwa [List.getLast?_cons_cons] at h
    rw [translateNl, if_neg hcd]
    rcases ih ha' with h0 | h0
    · exact absurd h0 (translateNl_ne_nil _ (by simp))
    · right
      cases htn : translateNl (d :: rest) with
      | nil => rw [htn] at h0; simp at h0
      | cons t ts =>
        rw [htn] at h0
        rwa [List.getLast?_cons_cons]

/-- Newline translation passes a carriage-return-free prefix through
unchanged. -/
theorem translateNl_no_cr (l m : List Char) (h : '\r' ∉ l) :
    translateNl (l ++ m) = l ++ translateNl m := by
  induction l with
  | nil => simp
  | cons c l' ih =>
    have hc : c ≠ '\r' := fun hh => h (hh ▸ List.mem_cons_self c l')
    have hl' : '\r' ∉ l' := fun hh => h (List.mem_cons_of_mem c hh)
    cases hlm : l' ++ m with
    | nil =>
      obtain ⟨rfl, rfl⟩ := List.append_eq_nil.mp hlm
      simp [translateNl, hc]
    | cons e es =>
      rw [List.cons_append, hlm, translateNl,
        if_neg (fun hh => hc hh.1), if_neg hc, ← hlm, ih hl']
      rfl

/-- Loading distributes over appending to any terminated content. -/
theorem loadList_append_of_terminated (c : String) (hc : terminated c)
    (d : List Char) :
    loadList (c.data ++ d) = loadList c.data ++ loadList d := by
  rw [loadList, loadList, loadList, translateNl_append c.data d hc]
  exact processLines_append_of_terminated _ _
    (translateNl_terminated c.data hc)

/-- A safe key followed by its newline loads back as exactly that key. -/
theorem safeKey_loadList (k : String) (hs : safeKey k) :
    loadList (k.data ++ ['\n']) = [k] := by
  have hnl : '\n' ∉ k.data := hs.2.2.1
  have hcr : '\r' ∉ k.data := hs.2.2.2
  have htn : translateNl (k.data ++ ['\n']) = k.data ++ ['\n'] := by
    rw [translateNl_no_cr k.data ['\n'] hcr]
    rfl
  rw [loadList, htn]
  have hsplit : (k.data ++ ['\n']).splitOn '\n' = [k.data, []] := by
    have h := List.splitOnP_first (fun c => c == '\n') k.data
      (fun x hx => by
        simp only [Bool.not_eq_true, beq_eq_false_iff_ne, ne_eq]
        intro he
        exact hnl (he ▸ hx))
      '\n' (by simp) []
    simpa [List.splitOn, List.splitOnP_nil] using h
  rw [processLines, hsplit]
  have hkk : pyStrip (String.mk k.data) = k := hs.2.1
  simp [hkk, pyStrip_empty, hs.1]

/-- Appending a key and newline keeps the content terminated. -/
theorem terminated_append (c k : String) : terminated (c ++ k ++ "\n") := by
  right
  rw [String.data_append]
  exact List.getLast?_concat _

/-- Along a run of file-backend calls from a terminated content whose seen
set is loadable, the content stays terminated and every safe member of the
seen set is recovered by loading the content. -/
theorem file_run_safe_inv (ks : List String) (st : FileState)
    (hterm : terminated st.content)
    (hinv : ∀ x ∈ st.seen, safeKey x → x ∈ load_seen st.content) :
    terminated (file_run st ks).2.content ∧
    ∀ x ∈ (file_run st ks).2.seen, safeKey x →
      x ∈ load_seen (file_run st ks).2.content := by
  induction ks generalizing st with
  | nil => exact ⟨hterm, hinv⟩
  | cons k ks ih =>
    by_cases hk : k ∈ st.seen
    · simp only [file_run, file_seen_before, if_pos hk]
      exact ih st hterm hinv
    · simp only [file_run, file_seen_before, if_neg hk]
      refine ih ⟨k :: st.seen, st.content ++ k ++ "\n"⟩ (terminated_append _ _) ?_
      intro x hx hsafe
      show x ∈ load_seen (st.content ++ k ++ "\n")
      have hdata : (st.content ++ k ++ "\n").data
          = st.content.data ++ (k.data ++ ['\n']) := by
        rw [String.data_append, String.data_append]
        simp
      rw [load_seen, hdata, loadList_append_of_terminated st.content hterm]
      rcases List.mem_cons.mp hx with rfl | hx'
      · rw [safeKey_loadList x hsafe]
        simp
      · exact List.mem_append_left _ (hinv x hx' hsafe)

/-- Every key passed to a run of file-backend calls is in the final seen
set. -/
theorem file_run_mem_seen (ks : List String) (st : FileState) :
    ∀ k ∈ ks, k ∈ (file_run st ks).2.seen := by
  induction ks generalizing st with
  | nil => intro k hk; cases hk
  | cons a ks ih =>
    intro k hk
    by_cases ha : a ∈ st.seen
    · simp only [file_run, file_seen_before, if_pos ha]
      rcases List.mem_cons.mp hk with rfl | hk'
      · exact (file_run_seen_iff ks st k).mpr (Or.inl ha)
      · exact ih st k hk'
    · simp only [file_run, file_seen_before, if_neg ha]
      rcases List.mem_cons.mp hk with rfl | hk'
      · exact (file_run_seen_iff ks _ k).mpr
          (Or.inl (List.mem_cons_self _ _))
      · exact ih _ k hk'

/-- C2 counterexample: the key a-space is fresh when first checked (so it
is marked seen and appended to the file), yet a fresh Dedupe instance over
the resulting file does not recognize it: the startup read strips each
line, so the stored line a no longer matches the key a-space. -/
theorem file_roundtrip_cex :
    (file_seen_before (file_init "") "a ").1 = false ∧
    (file_seen_before
        (file_init (file_seen_before (file_init "") "a ").2.content) "a ").1
      = false := by
  constructor <;> decide

/-- C2 (amended): for every key checked during a run of the file backend
that is non-empty, free of newline and carriage-return characters, and
fixed by Python whitespace stripping, and for a startup file content that
is empty or newline-terminated, a fresh Dedupe instance constructed over
the file content left by the run reports the key as seen. -/
theorem file_roundtrip (c0 : String) (ks : List String) (k : String)
    (hc : terminated c0) (hk : k ∈ ks) (hs : safeKey k) :
    (file_seen_before
        (file_init (file_run (file_init c0) ks).2.content) k).1 = true := by
  have h1 : k ∈ (file_run (file_init c0) ks).2.seen :=
    file_run_mem_seen ks (file_init c0) k hk
  have h2 := file_run_safe_inv ks (file_init c0) hc (fun x hx _ => hx)
  have h3 : k ∈ load_seen (file_run (file_init c0) ks).2.content :=
    h2.2 k h1 hs
  have h4 : k ∈ (file_init (file_run (file_init c0) ks).2.content).seen := h3
  simp [file_seen_before, h4]

/-- Witness for C2: the keys k1 and k2 written from an empty file are both
recognized by a fresh instance; shown for k1. -/
theorem file_roundtrip_witness :
    (file_seen_before
        (file_init (file_run (file_init "") ["k1", "k2"]).2.content) "k1").1
      = true :=
  file_roundtrip "" ["k1", "k2"] "k1" (Or.inl rfl) (by decide) (by decide)

end JobBot
